import Mathlib

/-!
Shallow embedding of the multi-platform patch orchestration core of the
copacetic repository, together with proofs settling the frozen claims
about it.  Each definition is translated from the named Go function or
shell script in the source tree; `Spec`-suffixed definitions restate the
specification's wording for refinement comparisons.
-/

namespace Copa

/-! ## String utilities

Go's `strings.Split(s, sep)` is used in the source only with the
single-character separators "," "." and (via `cut -d' '`) " ".  We model
it by a character-level split that produces the same list of fields:
splitting around every occurrence of the separator, with `[""]` on the
empty string, exactly as `strings.Split` does for a one-character
separator.  `strings.Contains` with a one-character needle is character
membership, and `strings.TrimSpace` removes whitespace from both ends.
All of these are written as structural recursions over the string's
character list so that concrete instances evaluate inside the kernel. -/

def splitOnCharList (c : Char) : List Char → List (List Char)
  | [] => [[]]
  | x :: xs =>
    match splitOnCharList c xs with
    | [] => if x = c then [[], []] else [[x]]
    | r :: rs => if x = c then [] :: r :: rs else (x :: r) :: rs

def splitOnChar (c : Char) (s : String) : List String :=
  (splitOnCharList c s.data).map List.asString

/-- Model of `strings.Contains(s, needle)` for a one-character needle. -/
def containsChar (s : String) (c : Char) : Bool :=
  s.data.contains c

/-- Drop leading whitespace characters from a character list. -/
def trimLeftList : List Char → List Char
  | [] => []
  | c :: cs => if c.isWhitespace then trimLeftList cs else c :: cs

/-- Model of Go's `strings.TrimSpace`: remove whitespace from both ends. -/
def trimString (s : String) : String :=
  ((trimLeftList (trimLeftList s.data).reverse).reverse).asString

theorem splitOnCharList_ne_nil (c : Char) (l : List Char) : splitOnCharList c l ≠ [] := by
  cases l with
  | nil => simp [splitOnCharList]
  | cons x xs =>
    unfold splitOnCharList
    cases h : splitOnCharList c xs with
    | nil => by_cases hx : x = c <;> simp [hx]
    | cons r rs => by_cases hx : x = c <;> simp [hx]

theorem splitOnChar_ne_nil (c : Char) (s : String) : splitOnChar c s ≠ [] := by
  simp only [splitOnChar, ne_eq, List.map_eq_nil_iff]
  exact splitOnCharList_ne_nil c s.data

/-! ## Report parser (src/pkg/report/trivy.go) -/

/-- `extractAppropriateFixedVersion` from src/pkg/report/trivy.go:
selects the most appropriate fixed version from a comma-separated list,
preferring a candidate that stays within the installed major version.
`strings.Contains(fixedVersions, ",")` is `containsChar · ','`;
`strings.TrimSpace` is `trimString`; `strings.Split` is `splitOnChar`.
The Go `len(...) == 0` / `len(...) > 0` guards around the results of
`strings.Split` appear here as the (always-`some`) `head?` matches. -/
def extractAppropriateFixedVersion (installedVersion fixedVersions : String) : String :=
  if ¬ containsChar fixedVersions ',' then
    trimString fixedVersions
  else
    let versions := splitOnChar ',' fixedVersions
    match (splitOnChar '.' installedVersion).head? with
    | none => trimString (versions.headD "")
    | some installedMajor =>
      match versions.find? (fun v =>
          match (splitOnChar '.' (trimString v)).head? with
          | some major => major == installedMajor
          | none => false) with
      | some v => trimString v
      | none => trimString (versions.headD "")

/-- The leading dot-separated component of a version string. -/
def leadingComponent (s : String) : String :=
  (splitOnChar '.' s).headD ""

/-- Fixed-version selection as worded by the specification: with no comma
the field itself (trimmed); otherwise the first comma-separated candidate
whose leading dot-separated component equals the installed version's
leading component, and the first listed candidate (trimmed) when no
candidate matches. -/
def selectedFixedVersionSpec (installedVersion fixedVersions : String) : String :=
  if containsChar fixedVersions ',' then
    let candidates := splitOnChar ',' fixedVersions
    match (candidates.filter
        (fun c => leadingComponent (trimString c) == leadingComponent installedVersion)).head? with
    | some c => trimString c
    | none => trimString (candidates.headD "")
  else
    trimString fixedVersions

theorem find?_eq_head?_filter {α : Type} (p : α → Bool) (l : List α) :
    l.find? p = (l.filter p).head? := by
  induction l with
  | nil => rfl
  | cons a l ih =>
    by_cases h : p a
    · rw [List.find?_cons_of_pos _ h, List.filter_cons_of_pos h, List.head?_cons]
    · rw [List.find?_cons_of_neg _ h, List.filter_cons_of_neg h, ih]

/-- C1: for every installed-version string and every fixed-version field,
the version selected by `extractAppropriateFixedVersion` is exactly the
one described by the specification's selection rule, and in particular
installed "3.0.0" with list "3.0.1,5.0.1,6.0.0" selects "3.0.1" and
installed "1.14.7" with list "1.14.8" selects "1.14.8". -/
theorem fixed_version_selection_correct :
    (∀ installedVersion fixedVersions : String,
      extractAppropriateFixedVersion installedVersion fixedVersions =
        selectedFixedVersionSpec installedVersion fixedVersions) ∧
    extractAppropriateFixedVersion "3.0.0" "3.0.1,5.0.1,6.0.0" = "3.0.1" ∧
    extractAppropriateFixedVersion "1.14.7" "1.14.8" = "1.14.8" := by
  refine ⟨fun installedVersion fixedVersions => ?_, by decide, by decide⟩
  unfold extractAppropriateFixedVersion selectedFixedVersionSpec
  by_cases hc : containsChar fixedVersions ','
  · rw [if_neg (by simp [hc]), if_pos hc]
    obtain ⟨m, rest, hs⟩ : ∃ m rest, splitOnChar '.' installedVersion = m :: rest := by
      cases h : splitOnChar '.' installedVersion with
      | nil => exact absurd h (splitOnChar_ne_nil _ _)
      | cons a l => exact ⟨a, l, rfl⟩
    have hlead : leadingComponent installedVersion = m := by
      unfold leadingComponent; rw [hs]; rfl
    rw [hs, hlead]
    simp only [List.head?_cons]
    have hfilter :
        (splitOnChar ',' fixedVersions).filter (fun v =>
          match (splitOnChar '.' (trimString v)).head? with
          | some major => major == m
          | none => false) =
        (splitOnChar ',' fixedVersions).filter
          (fun c => leadingComponent (trimString c) == m) := by
      apply List.filter_congr
      intro v _
      obtain ⟨a, l, hv⟩ : ∃ a l, splitOnChar '.' (trimString v) = a :: l := by
        cases h : splitOnChar '.' (trimString v) with
        | nil => exact absurd h (splitOnChar_ne_nil _ _)
        | cons a l => exact ⟨a, l, rfl⟩
      unfold leadingComponent
      rw [hv]
      rfl
    rw [find?_eq_head?_filter, hfilter]
  · rw [if_pos (by simp [hc]), if_neg hc]

/-! ## Trivy report data model and `Parse` (src/pkg/report/trivy.go) -/

/-- One vulnerability entry of a Trivy result section. -/
structure Vulnerability where
  pkgName : String
  installedVersion : String
  fixedVersion : String
  vulnerabilityID : String
deriving DecidableEq

/-- One result section of a Trivy report: `Class` is "os-pkgs" or
"lang-pkgs" (trivyTypes.ClassOSPkg / ClassLangPkg), `Type` is the tool
name (e.g. "npm"), `Target` is only logged. -/
structure TrivyResult where
  resultClass : String
  resultType : String
  target : String
  vulnerabilities : List Vulnerability
deriving DecidableEq

/-- The fields of a Trivy report consumed by `Parse`: the result sections
and the metadata (OS family/name and image architecture/variant). -/
structure Report where
  results : List TrivyResult
  osFamily : String
  osName : String
  arch : String
  variant : String
deriving DecidableEq

structure UpdatePackage where
  name : String
  installedVersion : String
  fixedVersion : String
  vulnerabilityID : String
deriving DecidableEq

/-- `unversioned.UpdateManifest` with its metadata flattened. -/
structure UpdateManifest where
  osType : String
  osVersion : String
  arch : String
  variant : String
  updates : List UpdatePackage
  nodeUpdates : List UpdatePackage
deriving DecidableEq

/-- The Node-ecosystem tool names recognised by `Parse`:
`r.Type == "npm" || "nodejs" || "yarn" || "pnpm" || "node-pkg"`. -/
def isNodeType (t : String) : Bool :=
  t == "npm" || t == "nodejs" || t == "yarn" || t == "pnpm" || t == "node-pkg"

def isNodeSection (r : TrivyResult) : Bool :=
  r.resultClass == "lang-pkgs" && isNodeType r.resultType

def isOsSection (r : TrivyResult) : Bool :=
  r.resultClass == "os-pkgs"

/-- The result-selection loop of `Parse` (trivy.go lines 75-89): at most
one "os-pkgs" section is accepted (a second is an error), and for
"lang-pkgs" sections with a Node tool name the variable is overwritten,
so the last such section wins. -/
def findResults : List TrivyResult → Option TrivyResult → Option TrivyResult →
    Except String (Option TrivyResult × Option TrivyResult)
  | [], osR, nodeR => .ok (osR, nodeR)
  | r :: rest, osR, nodeR =>
    if isOsSection r then
      match osR with
      | some _ => .error "unexpected multiple results for os-pkgs"
      | none => findResults rest (some r) nodeR
    else if isNodeSection r then
      findResults rest osR (some r)
    else
      findResults rest osR nodeR

/-- OS vulnerability to update entry (trivy.go lines 110-123): only
entries with a non-empty fixed version are kept. -/
def mkOsUpdate (v : Vulnerability) : Option UpdatePackage :=
  if v.fixedVersion ≠ "" then
    some ⟨v.pkgName, v.installedVersion, v.fixedVersion, v.vulnerabilityID⟩
  else none

/-- Node vulnerability to update entry (trivy.go lines 126-143): entries
with a non-empty fixed version are narrowed through
`extractAppropriateFixedVersion`, and dropped if that yields "". -/
def mkNodeUpdate (v : Vulnerability) : Option UpdatePackage :=
  if v.fixedVersion ≠ "" then
    let fixedVersion := extractAppropriateFixedVersion v.installedVersion v.fixedVersion
    if fixedVersion ≠ "" then
      some ⟨v.pkgName, v.installedVersion, fixedVersion, v.vulnerabilityID⟩
    else none
  else none

/-- `(t *TrivyParser) Parse` from src/pkg/report/trivy.go, after the file
has been read and unmarshalled (`parseTrivyReport` errors are outside
this model).  Mirrors the section-selection loop, the two vulnerability
loops (appending = `filterMap`), and the final emptiness check
`osResult == nil && nodeResult == nil`. -/
def Parse (report : Report) : Except String UpdateManifest :=
  match findResults report.results none none with
  | .error e => .error e
  | .ok (osR, nodeR) =>
    let updates := match osR with
      | some r => r.vulnerabilities.filterMap mkOsUpdate
      | none => []
    let nodeUpdates := match nodeR with
      | some r => r.vulnerabilities.filterMap mkNodeUpdate
      | none => []
    if osR.isNone && nodeR.isNone then
      .error "no scanning results for os-pkgs or node-pkg found"
    else
      .ok ⟨report.osFamily, report.osName, report.arch, report.variant,
        updates, nodeUpdates⟩

/-- The last Node-ecosystem section of a result list, starting from an
accumulator — the value `nodeResult` holds after the selection loop. -/
def lastNodeSection : List TrivyResult → Option TrivyResult → Option TrivyResult
  | [], acc => acc
  | r :: rest, acc => lastNodeSection rest (if isNodeSection r then some r else acc)

theorem findResults_node_eq (l : List TrivyResult) :
    ∀ osR nodeR osR' nodeR',
      findResults l osR nodeR = .ok (osR', nodeR') →
      nodeR' = lastNodeSection l nodeR := by
  induction l with
  | nil =>
    intro osR nodeR osR' nodeR' h
    simp only [findResults, Except.ok.injEq, Prod.mk.injEq] at h
    simp [lastNodeSection, ← h.2]
  | cons r rest ih =>
    intro osR nodeR osR' nodeR' h
    simp only [findResults] at h
    by_cases hos : isOsSection r
    · have hnode : isNodeSection r = false := by
        simp only [isOsSection] at hos
        simp [isNodeSection, hos]
        intro hcontra
        rw [hcontra] at hos
        simp at hos
      rw [if_pos hos] at h
      cases osR with
      | some a => simp at h
      | none =>
        simp only [lastNodeSection, hnode, if_neg]
        exact ih _ _ _ _ h
    · rw [if_neg hos] at h
      by_cases hn : isNodeSection r
      · rw [if_pos hn] at h
        simp only [lastNodeSection, hn, if_pos]
        exact ih _ _ _ _ h
      · rw [if_neg hn] at h
        simp only [lastNodeSection, hn]
        simp only [Bool.false_eq_true, if_false]
        exact ih _ _ _ _ h

/-- C4 (amended): when a parsed report contains multiple Node-ecosystem
result sections, only the fixable entries of the LAST qualifying section
(in report order) populate the manifest's application-level update list,
in that section's order; earlier qualifying sections are discarded. -/
theorem node_sections_last_wins (report : Report) (m : UpdateManifest)
    (h : Parse report = .ok m) :
    m.nodeUpdates =
      match lastNodeSection report.results none with
      | some r => r.vulnerabilities.filterMap mkNodeUpdate
      | none => [] := by
  unfold Parse at h
  cases hf : findResults report.results none none with
  | error e => rw [hf] at h; simp at h
  | ok p =>
    obtain ⟨osR, nodeR⟩ := p
    rw [hf] at h
    have hnode := findResults_node_eq report.results none none osR nodeR hf
    rw [← hnode]
    cases osR with
    | none =>
      cases nodeR with
      | none => simp at h
      | some nr =>
        simp only [Option.isNone_none, Option.isNone_some, Bool.and_false,
          Bool.false_eq_true, if_false, Except.ok.injEq] at h
        rw [← h]
    | some osr =>
      cases nodeR with
      | none =>
        simp only [Option.isNone_none, Option.isNone_some, Bool.false_and,
          Bool.false_eq_true, if_false, Except.ok.injEq] at h
        rw [← h]
      | some nr =>
        simp only [Option.isNone_none, Option.isNone_some, Bool.and_false,
          Bool.false_and, Bool.false_eq_true, if_false, Except.ok.injEq] at h
        rw [← h]

/-- Concrete report with two qualifying Node-ecosystem sections. -/
def twoNodeReport : Report :=
  ⟨[⟨"lang-pkgs", "npm", "app/package-lock.json",
      [⟨"ansi-regex", "3.0.0", "3.0.1", "CVE-2021-3807"⟩]⟩,
    ⟨"lang-pkgs", "yarn", "app/yarn.lock",
      [⟨"lodash", "4.17.20", "4.17.21", "CVE-2021-23337"⟩]⟩],
    "alpine", "3.18", "amd64", ""⟩

/-- C4 counterexample: on a report with two qualifying Node sections
(npm then yarn, each with one fixable entry), `Parse` returns only the
second section's entry — the first section's fixable entry "ansi-regex"
is discarded, so the sections are NOT merged preserving first-seen
order. -/
theorem node_sections_not_merged_counterexample :
    Parse twoNodeReport =
      .ok ⟨"alpine", "3.18", "amd64", "", [],
        [⟨"lodash", "4.17.20", "4.17.21", "CVE-2021-23337"⟩]⟩ ∧
    ∀ m : UpdateManifest, Parse twoNodeReport = .ok m →
      "ansi-regex" ∉ m.nodeUpdates.map UpdatePackage.name := by
  constructor
  · rfl
  · intro m hm
    have h1 : Parse twoNodeReport =
        .ok ⟨"alpine", "3.18", "amd64", "", [],
          [⟨"lodash", "4.17.20", "4.17.21", "CVE-2021-23337"⟩]⟩ := rfl
    rw [h1] at hm
    have h2 := Except.ok.inj hm
    rw [← h2]
    decide

/-- Witness for the amended C4 theorem at the concrete two-section
report. -/
theorem node_sections_last_wins_witness :
    (⟨"alpine", "3.18", "amd64", "", [],
      [⟨"lodash", "4.17.20", "4.17.21", "CVE-2021-23337"⟩]⟩ : UpdateManifest).nodeUpdates =
      match lastNodeSection twoNodeReport.results none with
      | some r => r.vulnerabilities.filterMap mkNodeUpdate
      | none => [] :=
  node_sections_last_wins twoNodeReport _ rfl

theorem isOsSection_not_node (r : TrivyResult) (h : isOsSection r = true) :
    isNodeSection r = false := by
  unfold isOsSection at h
  unfold isNodeSection
  rw [eq_of_beq h]
  rfl

theorem findResults_no_os (l : List TrivyResult) :
    ∀ osR nodeR, l.filter isOsSection = [] →
      findResults l osR nodeR = .ok (osR, lastNodeSection l nodeR) := by
  induction l with
  | nil => intro osR nodeR _; rfl
  | cons r rest ih =>
    intro osR nodeR hfil
    have hos : ¬ (isOsSection r = true) := by
      intro hc
      rw [List.filter_cons_of_pos hc] at hfil
      simp at hfil
    rw [List.filter_cons_of_neg hos] at hfil
    simp only [findResults, hos, if_false, lastNodeSection]
    by_cases hn : isNodeSection r
    · rw [if_pos hn, if_pos hn]
      exact ih _ _ hfil
    · rw [if_neg hn, if_neg hn]
      exact ih _ _ hfil

theorem findResults_le_one_os (l : List TrivyResult) :
    ∀ nodeR, (l.filter isOsSection).length ≤ 1 →
      findResults l none nodeR =
        .ok ((l.filter isOsSection).head?, lastNodeSection l nodeR) := by
  induction l with
  | nil => intro nodeR _; rfl
  | cons r rest ih =>
    intro nodeR hlen
    by_cases hos : isOsSection r
    · rw [List.filter_cons_of_pos hos] at hlen ⊢
      have hrest : rest.filter isOsSection = [] := by
        rw [List.length_cons] at hlen
        have h0 : (rest.filter isOsSection).length = 0 := by omega
        exact List.eq_nil_of_length_eq_zero h0
      have hnode := isOsSection_not_node r hos
      simp only [findResults]
      rw [if_pos hos]
      rw [findResults_no_os rest (some r) nodeR hrest]
      simp only [lastNodeSection, hnode, Bool.false_eq_true, if_false, List.head?_cons]
    · rw [List.filter_cons_of_neg hos] at hlen ⊢
      simp only [findResults]
      rw [if_neg hos]
      by_cases hn : isNodeSection r
      · rw [if_pos hn, ih _ hlen]
        simp only [lastNodeSection]
        rw [if_pos hn]
      · rw [if_neg hn, ih _ hlen]
        simp only [lastNodeSection]
        rw [if_neg hn]

theorem lastNodeSection_eq_none (l : List TrivyResult) :
    ∀ acc, lastNodeSection l acc = none ↔
      (acc = none ∧ ∀ r ∈ l, isNodeSection r = false) := by
  induction l with
  | nil => intro acc; simp [lastNodeSection]
  | cons r rest ih =>
    intro acc
    simp only [lastNodeSection]
    by_cases hn : isNodeSection r
    · rw [if_pos hn, ih]
      simp [hn]
    · rw [if_neg hn, ih]
      simp only [Bool.not_eq_true] at hn
      simp [hn]

theorem lastNodeSection_some (l : List TrivyResult) :
    ∀ acc r, lastNodeSection l acc = some r →
      (r ∈ l ∧ isNodeSection r = true) ∨ acc = some r := by
  induction l with
  | nil => intro acc r h; right; exact h
  | cons q rest ih =>
    intro acc r h
    simp only [lastNodeSection] at h
    by_cases hn : isNodeSection q
    · rw [if_pos hn] at h
      rcases ih _ _ h with ⟨hm, hnr⟩ | heq
      · exact Or.inl ⟨List.mem_cons_of_mem _ hm, hnr⟩
      · have hq : q = r := Option.some.inj heq
        exact Or.inl ⟨hq ▸ List.mem_cons_self q rest, hq ▸ hn⟩
    · rw [if_neg hn] at h
      rcases ih _ _ h with ⟨hm, hnr⟩ | heq
      · exact Or.inl ⟨List.mem_cons_of_mem _ hm, hnr⟩
      · exact Or.inr heq

theorem head?_filter_mem {α : Type} (p : α → Bool) (l : List α) (a : α)
    (h : (l.filter p).head? = some a) : a ∈ l ∧ p a = true := by
  cases hf : l.filter p with
  | nil => rw [hf] at h; simp at h
  | cons b t =>
    rw [hf] at h
    simp only [List.head?_cons, Option.some.injEq] at h
    have hb : b ∈ l.filter p := by rw [hf]; exact List.mem_cons_self b t
    rw [← h]
    exact ⟨List.mem_of_mem_filter hb, List.of_mem_filter hb⟩

/-- The OS-level update list extracted from the selected OS section. -/
def osUpdatesOf : Option TrivyResult → List UpdatePackage
  | some t => t.vulnerabilities.filterMap mkOsUpdate
  | none => []

/-- The application-level update list extracted from the selected Node
section. -/
def nodeUpdatesOf : Option TrivyResult → List UpdatePackage
  | some t => t.vulnerabilities.filterMap mkNodeUpdate
  | none => []

theorem Parse_of_findResults (r : Report) (o n : Option TrivyResult)
    (hf : findResults r.results none none = .ok (o, n)) :
    Parse r =
      if o.isNone && n.isNone then
        .error "no scanning results for os-pkgs or node-pkg found"
      else
        .ok ⟨r.osFamily, r.osName, r.arch, r.variant, osUpdatesOf o, nodeUpdatesOf n⟩ := by
  unfold Parse
  rw [hf]
  cases o <;> cases n <;> rfl

/-- C5 (amended): for every report in which every vulnerability entry of
every supported result section has an empty fixed version AND the report
contains at most one OS-class section, `Parse` returns an empty manifest
and no error when at least one supported section exists, and an error
when none does.  (Without the at-most-one-OS-section proviso the claim
fails: duplicate OS sections are rejected as conflicting, see the
counterexample.) -/
theorem empty_fix_reports_parse (r : Report)
    (hfix : ∀ res ∈ r.results, (isOsSection res || isNodeSection res) = true →
      ∀ v ∈ res.vulnerabilities, v.fixedVersion = "")
    (hos : (r.results.filter isOsSection).length ≤ 1) :
    (r.results.any (fun res => isOsSection res || isNodeSection res) = true →
      Parse r = .ok ⟨r.osFamily, r.osName, r.arch, r.variant, [], []⟩) ∧
    (r.results.any (fun res => isOsSection res || isNodeSection res) = false →
      Parse r = .error "no scanning results for os-pkgs or node-pkg found") := by
  have hfind := findResults_le_one_os r.results none hos
  have hparse := Parse_of_findResults r _ _ hfind
  constructor
  · intro hany
    rw [hparse]
    obtain ⟨res, hmem, hsup⟩ := List.any_eq_true.mp hany
    have hcond : ((r.results.filter isOsSection).head?.isNone &&
        (lastNodeSection r.results none).isNone) = false := by
      rcases Bool.or_eq_true_iff.mp hsup with hres | hres
      · have hne : r.results.filter isOsSection ≠ [] := by
          intro hnil
          have : res ∈ r.results.filter isOsSection := List.mem_filter.mpr ⟨hmem, hres⟩
          rw [hnil] at this
          exact absurd this (List.not_mem_nil res)
        cases hh : r.results.filter isOsSection with
        | nil => exact absurd hh hne
        | cons b t => simp [hh]
      · have hne : lastNodeSection r.results none ≠ none := by
          intro hnone
          have := ((lastNodeSection_eq_none r.results none).mp hnone).2 res hmem
          rw [this] at hres
          exact Bool.false_ne_true hres
        cases hh : lastNodeSection r.results none with
        | none => exact absurd hh hne
        | some b => simp [hh]
    rw [hcond]
    simp only [Bool.false_eq_true, if_false]
    have hosEmpty : osUpdatesOf (r.results.filter isOsSection).head? = [] := by
      cases hh : (r.results.filter isOsSection).head? with
      | none => rfl
      | some t =>
        obtain ⟨htmem, htos⟩ := head?_filter_mem isOsSection r.results t hh
        simp only [osUpdatesOf]
        rw [List.filterMap_eq_nil_iff]
        intro v hv
        have hvfix := hfix t htmem (by rw [htos]; rfl) v hv
        simp [mkOsUpdate, hvfix]
    have hnodeEmpty : nodeUpdatesOf (lastNodeSection r.results none) = [] := by
      cases hh : lastNodeSection r.results none with
      | none => rfl
      | some t =>
        rcases lastNodeSection_some r.results none t hh with ⟨htmem, htn⟩ | habs
        · simp only [nodeUpdatesOf]
          rw [List.filterMap_eq_nil_iff]
          intro v hv
          have hvfix := hfix t htmem (by rw [htn]; simp) v hv
          simp [mkNodeUpdate, hvfix]
        · exact absurd habs (by simp)
    rw [hosEmpty, hnodeEmpty]
  · intro hnone
    rw [hparse]
    have hall := List.any_eq_false.mp hnone
    have hosNil : r.results.filter isOsSection = [] := by
      rw [List.filter_eq_nil_iff]
      intro res hmem
      have := hall res hmem
      simp only [Bool.not_eq_true, Bool.or_eq_false_iff] at this
      simp [this.1]
    have hnodeNone : lastNodeSection r.results none = none := by
      rw [lastNodeSection_eq_none]
      refine ⟨rfl, fun res hmem => ?_⟩
      have := hall res hmem
      simp only [Bool.not_eq_true, Bool.or_eq_false_iff] at this
      exact this.2
    rw [hosNil, hnodeNone]
    rfl

/-- Concrete syntactically valid report with two OS-class sections and no
fixable entry anywhere. -/
def twoOsReport : Report :=
  ⟨[⟨"os-pkgs", "alpine", "img", []⟩, ⟨"os-pkgs", "alpine", "img", []⟩],
    "alpine", "3.18", "amd64", ""⟩

/-- C5 counterexample: a report whose every vulnerability entry (there
are none) has an empty fixed version and which contains a supported
result section still makes `Parse` return an error, because it has two
OS-class sections — contradicting the claim that `Parse` succeeds with
an empty manifest whenever at least one supported section exists. -/
theorem empty_fix_two_os_sections_counterexample :
    (∀ res ∈ twoOsReport.results, ∀ v ∈ res.vulnerabilities, v.fixedVersion = "") ∧
    twoOsReport.results.any (fun res => isOsSection res || isNodeSection res) = true ∧
    Parse twoOsReport = .error "unexpected multiple results for os-pkgs" := by
  refine ⟨by decide, by decide, rfl⟩

/-- Concrete report with a single OS section whose only entry has no
fixed version. -/
def oneOsEmptyReport : Report :=
  ⟨[⟨"os-pkgs", "alpine", "img", [⟨"openssl", "1.1.1", "", "CVE-X"⟩]⟩],
    "alpine", "3.18", "amd64", ""⟩

/-- Witness for the amended C5 theorem at a concrete one-section report
with no fixable entries. -/
theorem empty_fix_reports_parse_witness :
    Parse oneOsEmptyReport = .ok ⟨"alpine", "3.18", "amd64", "", [], []⟩ :=
  (empty_fix_reports_parse oneOsEmptyReport (by decide) (by decide)).1 (by decide)

/-! ## Node-ecosystem package manager (src/pkg/pkgmgr/npm.go) -/

/-- Abstract buildkit LLB filesystem state: either the manager's starting
image state or a state with one more deferred run step appended. -/
inductive LLBState where
  | base : LLBState
  | run : LLBState → String → LLBState
deriving DecidableEq

/-- The single shell command `npmManager.InstallUpdates` appends
(npm.go line 38). -/
def npmAuditFixCmd : String :=
  "sh -c \"cd /app && npm audit fix --force && npm cache clean --force || true\""

/-- Return triple of `InstallUpdates`: new state, failed-package list,
error (`none` = Go `nil`). -/
structure InstallResult where
  state : LLBState
  errPkgs : List String
  err : Option String
deriving DecidableEq

/-- `npmManager.InstallUpdates` from src/pkg/pkgmgr/npm.go: the context
and `ignoreErrors` parameters are ignored (both are `_` in the Go
signature); a nil or empty manifest returns the image state unchanged;
otherwise one `npm audit fix` run step is appended and the call always
reports success with an empty failed-package list. -/
def npmInstallUpdates (imageState : LLBState) (manifest : Option UpdateManifest)
    (ignoreErrors : Bool) : InstallResult :=
  match manifest with
  | none => ⟨imageState, [], none⟩
  | some m =>
    if m.updates.length = 0 then
      ⟨imageState, [], none⟩
    else
      ⟨LLBState.run imageState npmAuditFixCmd, [], none⟩

/-- C6 (amended): `npmManager.InstallUpdates` ignores the `ignoreErrors`
flag entirely — its output is identical for both flag values — and it
never fails: for every starting state and manifest the returned
failed-package list is empty and the returned error is `nil`, so a
package that cannot be updated is neither fatal nor recorded; moreover
the single deferred shell command it appends ends in "|| true", so even
the described run cannot fail the build. -/
theorem npm_install_updates_never_fails :
    (∀ (st : LLBState) (manifest : Option UpdateManifest) (ignoreErrors : Bool),
      npmInstallUpdates st manifest ignoreErrors = npmInstallUpdates st manifest true ∧
      (npmInstallUpdates st manifest ignoreErrors).errPkgs = [] ∧
      (npmInstallUpdates st manifest ignoreErrors).err = none) ∧
    (npmAuditFixCmd.data.reverse.take 8).reverse.asString = "|| true\"" := by
  refine ⟨fun st manifest ignoreErrors => ?_, by decide⟩
  refine ⟨rfl, ?_, ?_⟩ <;>
    cases manifest with
    | none => rfl
    | some m => by_cases h : m.updates.length = 0 <;> simp [npmInstallUpdates, h]

/-- Concrete non-empty manifest with one Node package to update. -/
def lodashManifest : UpdateManifest :=
  ⟨"alpine", "3.18", "amd64", "",
    [⟨"lodash", "4.17.20", "4.17.21", "CVE-2021-23337"⟩], []⟩

/-- C6 counterexample: with a non-empty manifest and `ignoreErrors=false`
the call returns no error and an empty failed-package list (so an
un-updatable package can never surface as an error naming it), and the
output is byte-identical to the `ignoreErrors=true` call — the claimed
error-semantics distinction does not exist in the code. -/
theorem npm_install_updates_error_semantics_counterexample :
    npmInstallUpdates LLBState.base (some lodashManifest) false =
      ⟨LLBState.run LLBState.base npmAuditFixCmd, [], none⟩ ∧
    npmInstallUpdates LLBState.base (some lodashManifest) false =
      npmInstallUpdates LLBState.base (some lodashManifest) true := by
  exact ⟨rfl, rfl⟩

/-! ## Node patch-script directory selection
(`buildNpmPatchScript`, src/pkg/pkgmgr/npm.go lines 152-179, and the
application-root discovery script of src/unnamed/part_006).

A filesystem is modelled as the list of paths of its regular files. -/

/-- The fixed list of conventional locations scanned by the first loop of
the script produced by `buildNpmPatchScript`. -/
def npmScriptCommonDirs : List String :=
  ["/app", "/usr/src/app", "/opt/app", "/src", "/", "/workspace"]

/-- The base directories searched recursively by the second loop. -/
def npmScriptFindBases : List String :=
  ["/app", "/usr/src/app", "/opt/app"]

/-- True when `p` is a path of the form `base/.../package.json`. -/
def isPackageJsonUnder (base p : String) : Bool :=
  (base ++ "/").data.isPrefixOf p.data &&
    "/package.json".data.reverse.isPrefixOf p.data.reverse

/-- Directory of a `.../package.json` path (`dirname` in the script):
drop the trailing "/package.json" (13 characters). -/
def packageJsonDir (p : String) : String :=
  (p.data.take (p.data.length - 13)).asString

/-- The directories in which the script produced by `buildNpmPatchScript`
runs `patch_node_deps`: every conventional location containing a
`package.json` (first loop), then every directory strictly below one of
the find bases that contains a `package.json` (second loop).  Neither
loop tests for a lock file or excludes `node_modules`. -/
def npmPatchScriptDirs (fs : List String) : List String :=
  npmScriptCommonDirs.filter (fun d => fs.contains (d ++ "/package.json")) ++
  npmScriptFindBases.flatMap (fun base =>
    fs.filterMap (fun p =>
      if isPackageJsonUnder base p ∧ packageJsonDir p ≠ base then
        some (packageJsonDir p)
      else none))

/-- True when some path component equals "node_modules" (the script's
`echo "$dir" | grep -q "node_modules"` matches at least these). -/
def inNodeModules (dir : String) : Bool :=
  (splitOnChar '/' dir).contains "node_modules"

/-- The application-root discovery script of src/unnamed/part_006,
common-locations phase: a directory qualifies only if it holds BOTH
`package.json` and `package-lock.json` and is not inside
`node_modules`. -/
def nodeAppRootCommonDirs : List String :=
  ["/app", "/usr/src/app", "/opt/app", "/workspace", "/"]

def nodeAppRoots (fs : List String) : List String :=
  nodeAppRootCommonDirs.filter (fun d =>
    fs.contains (d ++ "/package.json") &&
    fs.contains (d ++ "/package-lock.json") &&
    ! inNodeModules d)

/-- Concrete image filesystem: an application without a lock file, plus a
vendored dependency inside `node_modules`. -/
def npmBugFs : List String :=
  ["/app/package.json", "/app/node_modules/lodash/package.json"]

/-- C7: evaluation of the `buildNpmPatchScript` directory selection at
the failing input `npmBugFs`: it patches `/app`, which has no
`package-lock.json` anywhere in the filesystem, and it also patches
`/app/node_modules/lodash`, which lies inside a `node_modules`
dependency-cache directory — while the part_006 discovery script on the
same filesystem selects no application root at all.  This contradicts
the claimed (and documented) invariant that patched directories contain
both manifest and lock file and never lie inside `node_modules`. -/
theorem npm_patch_script_violates_app_root_invariant :
    npmPatchScriptDirs npmBugFs = ["/app", "/app/node_modules/lodash"] ∧
    npmBugFs.contains "/app/package-lock.json" = false ∧
    inNodeModules "/app/node_modules/lodash" = true ∧
    nodeAppRoots npmBugFs = [] := by
  refine ⟨by decide, by decide, by decide, by decide⟩

/-! ## dpkg status-file fragment splitting
(src/pkg/pkgmgr/scripts/apt_get_download_all_pkgs.sh lines 47-88).

The status file is modelled as its list of lines (each line without its
terminating newline, exactly what `read -r line` yields); a produced
fragment is the pair of its file name and the block's lines. -/

/-- `cut -d' ' -f2`: the second space-separated field, or the whole line
when it contains no space. -/
def cutField2 (line : String) : String :=
  match splitOnChar ' ' line with
  | [] => line
  | [_] => line
  | _ :: second :: _ => second

/-- True when the line matches the shell pattern "Package:"*. -/
def isPackageLine (line : String) : Bool :=
  "Package:".data.isPrefixOf line.data

/-- Fragment naming used at the end of each blank-line-terminated block:
the special `base-files` package is renamed to `base`. -/
def outputName (n : String) : String :=
  if n = "base-files" then "base" else n

/-- The `while IFS= read -r line` loop of the script, threading the
`package_name` and `package_content` shell variables; on end of input the
`handle last block` step writes the trailing block under its RAW name
(the script uses `$package_name` there, not `$output_name`). -/
def splitLoop : List String → String → List String → List (String × List String)
  | [], name, content =>
    if name ≠ "" ∧ content ≠ [] then [(name, content)] else []
  | line :: rest, name, content =>
    if line = "" then
      (if name ≠ "" then [(outputName name, content)] else []) ++ splitLoop rest "" []
    else
      splitLoop rest
        (if isPackageLine line then cutField2 line else name)
        (content ++ [line])

/-- The status.d split step: fragments produced from a status file, in
write order. -/
def splitStatusFile (lines : List String) : List (String × List String) :=
  splitLoop lines "" []

/-- The `package_name` shell variable after a block's lines have been
read, starting from `acc`. -/
def blockFoldName (b : List String) (acc : String) : String :=
  b.foldl (fun n line => if isPackageLine line then cutField2 line else n) acc

/-- The `Package:` name of a block read from a fresh state. -/
def blockName (b : List String) : String := blockFoldName b ""

/-- Render blocks to a status file in which every block is terminated by
a blank line. -/
def renderBlocks (bs : List (List String)) : List String :=
  bs.flatMap (fun b => b ++ [""])

theorem splitLoop_append_block (b : List String) :
    ∀ rest name content, (∀ l ∈ b, l ≠ "") →
      splitLoop (b ++ rest) name content =
        splitLoop rest (blockFoldName b name) (content ++ b) := by
  induction b with
  | nil => intro rest name content _; simp [blockFoldName]
  | cons line b ih =>
    intro rest name content hb
    have hline : line ≠ "" := hb line (List.mem_cons_self line b)
    rw [List.cons_append]
    show splitLoop (line :: (b ++ rest)) name content = _
    simp only [splitLoop]
    rw [if_neg hline]
    rw [ih rest _ _ (fun l hl => hb l (List.mem_cons_of_mem _ hl))]
    simp [blockFoldName, List.append_assoc]

/-- Round-trip of the split loop on a fully terminated status file: each
block with a non-empty `Package:` name becomes exactly one fragment, in
order, named by `outputName` of its `Package:` field, and the fragments'
contents are exactly the input blocks (no package lost). -/
theorem splitStatusFile_renderBlocks (bs : List (List String))
    (h : ∀ b ∈ bs, (∀ l ∈ b, l ≠ "") ∧ blockName b ≠ "") :
    splitStatusFile (renderBlocks bs) =
      bs.map (fun b => (outputName (blockName b), b)) := by
  unfold splitStatusFile
  induction bs with
  | nil => rfl
  | cons b bs ih =>
    have hb := h b (List.mem_cons_self b bs)
    have hrender : renderBlocks (b :: bs) = b ++ ([""] ++ renderBlocks bs) := by
      simp [renderBlocks]
    rw [hrender, splitLoop_append_block b _ "" [] hb.1]
    show splitLoop ("" :: renderBlocks bs) (blockFoldName b "") ([] ++ b) = _
    simp only [splitLoop, List.nil_append, if_pos rfl]
    rw [if_pos (show blockFoldName b "" ≠ "" from hb.2)]
    rw [ih (fun b hbmem => h b (List.mem_cons_of_mem _ hbmem))]
    rfl

/-- C2: evaluation of the split loop at the failing input.  A status file
whose final `base-files` block is not terminated by a blank line
produces a fragment named "base-files": the base-files-to-base rename is
not applied by the trailing-block handler, unlike the identical block
terminated by a blank line, which produces the fragment "base". -/
theorem status_split_trailing_base_files_not_renamed :
    splitStatusFile ["Package: base-files", "Essential: yes"] =
      [("base-files", ["Package: base-files", "Essential: yes"])] ∧
    splitStatusFile ["Package: base-files", "Essential: yes", ""] =
      [("base", ["Package: base-files", "Essential: yes"])] := by
  exact ⟨by decide, by decide⟩

/-! ## Platform discovery and matching (src/unnamed/part_002, package
buildkit) -/

/-- `types.PatchPlatform`: an OCI platform plus the report file matched
to it and the preserve flag. -/
structure PatchPlatform where
  os : String
  architecture : String
  variant : String
  osVersion : String
  osFeatures : List String
  reportFile : String
  shouldPreserve : Bool
deriving DecidableEq, Inhabited

/-- `PlatformKey` (part_002 lines 362-373). -/
def PlatformKey (pl : PatchPlatform) : String :=
  let key := pl.os ++ "/" ++ pl.architecture
  let key := if pl.variant ≠ "" then key ++ "/" ++ pl.variant else key
  if pl.osVersion ≠ "" then key ++ "@" ++ pl.osVersion else key

/-- The arm64/v8 normalization snippet that both discovery paths apply
immediately after constructing a platform:
`if Architecture == "arm64" && Variant == "v8" then Variant = ""`. -/
def normalizeArm64 (pl : PatchPlatform) : PatchPlatform :=
  if pl.architecture = "arm64" ∧ pl.variant = "v8" then { pl with variant := "" } else pl

/-- The platform fields of one sub-manifest of an image index. -/
structure PlatformDesc where
  os : String
  architecture : String
  variant : String
  osVersion : String
  osFeatures : List String
deriving DecidableEq

/-- The platform fields of a single-platform image's config file. -/
structure ImageConfig where
  os : String
  architecture : String
  variant : String
deriving DecidableEq

/-- The resolved descriptor of an image reference: a multi-platform index
(each sub-manifest with an optional platform section, `none` modelling a
Go nil `m.Platform`) or a single-platform image with its config. -/
inductive ManifestDescriptor where
  | index : List (Option PlatformDesc) → ManifestDescriptor
  | single : ImageConfig → ManifestDescriptor

/-- Platform built from an index sub-manifest (part_002 lines 308-324). -/
def mkRefPlatform (d : PlatformDesc) : PatchPlatform :=
  normalizeArm64 ⟨d.os, d.architecture, d.variant, d.osVersion, d.osFeatures, "", false⟩

/-- `DiscoverPlatformsFromReference` (part_002 lines 267-359) after the
descriptor has been fetched: for an index, emit one platform per
sub-manifest, skipping nil or unknown platforms; for a single-platform
image, emit one platform from the config when it carries OS and
architecture, and nothing otherwise.  The Go function returns a nil
slice exactly when this list is empty (nothing was ever appended). -/
def DiscoverPlatformsFromReference : ManifestDescriptor → List PatchPlatform
  | .index ms => ms.filterMap (fun m =>
      match m with
      | none => none
      | some d =>
        if d.os = "unknown" ∨ d.architecture = "unknown" then none
        else some (mkRefPlatform d))
  | .single cfg =>
      if cfg.architecture ≠ "" ∧ cfg.os ≠ "" then
        [normalizeArm64 ⟨cfg.os, cfg.architecture, cfg.variant, "", [], "", false⟩]
      else []

/-- One directory entry of the report directory, as seen by
`DiscoverPlatformsFromReport`: a subdirectory (skipped), a file the
scanner-report parser rejects, or a parsed report carrying the metadata
fields the function reads (OS family, image architecture and variant). -/
inductive ReportEntry where
  | dir : String → ReportEntry
  | unparseable : String → ReportEntry
  | parsed : String → String → String → String → ReportEntry
deriving DecidableEq

/-- `isSupportedOsType` (part_002 lines 178-185). -/
def isSupportedOsType (osType : String) : Bool :=
  ["alpine", "debian", "ubuntu", "cbl-mariner", "azurelinux", "centos",
    "oracle", "redhat", "rocky", "amazon", "alma"].contains osType

/-- Platform built from a parsed report (part_002 lines 157-171): the OS
field is the constant "linux", and arm64/v8 is normalized. -/
def mkReportPlatform (arch variant path : String) : PatchPlatform :=
  normalizeArm64 ⟨"linux", arch, variant, "", [], path, false⟩

/-- `DiscoverPlatformsFromReport` (part_002 lines 134-176): iterate the
directory entries in order; skip subdirectories; abort with an error on
the first unparseable report; emit a platform for a parsed report only
when its OS type is supported, silently skipping the rest. -/
def DiscoverPlatformsFromReport (reportDir : String) :
    List ReportEntry → Except String (List PatchPlatform)
  | [] => .ok []
  | .dir _ :: rest => DiscoverPlatformsFromReport reportDir rest
  | .unparseable _ :: rest =>
    match DiscoverPlatformsFromReport reportDir rest with
    | _ => .error "error parsing report"
  | .parsed nm osType arch variant :: rest =>
    if isSupportedOsType osType then
      match DiscoverPlatformsFromReport reportDir rest with
      | .error e => .error e
      | .ok ps => .ok (mkReportPlatform arch variant (reportDir ++ "/" ++ nm) :: ps)
    else DiscoverPlatformsFromReport reportDir rest

/-- Insert with overwrite, modelling assignment into the Go map
`reportSet[key] = file`. -/
def insertAssoc (m : List (String × String)) (k v : String) : List (String × String) :=
  if m.any (fun kv => kv.1 == k) then
    m.map (fun kv => if kv.1 == k then (k, v) else kv)
  else m ++ [(k, v)]

/-- Map lookup `reportSet[key]`. -/
def lookupAssoc (m : List (String × String)) (k : String) : Option String :=
  (m.find? (fun kv => kv.1 == k)).map (fun kv => kv.2)

/-- The `reportSet` map built from the report-discovered platforms
(part_002 lines 395-398). -/
def buildReportSet (p2 : List PatchPlatform) : List (String × String) :=
  p2.foldl (fun m pl => insertAssoc m (PlatformKey pl) pl.reportFile) []

/-- The body of the matching loop of `DiscoverPlatforms` (part_002 lines
400-413) for one image-discovered platform. -/
def matchOne (reportSet : List (String × String)) (pl : PatchPlatform) : PatchPlatform :=
  match lookupAssoc reportSet (PlatformKey pl) with
  | some rp => { pl with reportFile := rp, shouldPreserve := false }
  | none => { pl with reportFile := "", shouldPreserve := true }

/-- The matching loop: every image-discovered platform is appended to the
output, with its report file attached when its key is in the map. -/
def matchPlatforms (p : List PatchPlatform) (reportSet : List (String × String)) :
    List PatchPlatform :=
  p.map (matchOne reportSet)

/-- `DiscoverPlatforms` (part_002 lines 375-419).  In Go the
`p == nil` test fires exactly when no platform was appended, i.e. when
the reference-discovery list is empty. -/
def DiscoverPlatforms (d : ManifestDescriptor)
    (reportDir : Option (String × List ReportEntry)) :
    Except String (List PatchPlatform) :=
  let p := DiscoverPlatformsFromReference d
  if p = [] then .error "image is not multi platform"
  else
    match reportDir with
    | some (dirPath, entries) =>
      match DiscoverPlatformsFromReport dirPath entries with
      | .error e => .error e
      | .ok p2 => .ok (matchPlatforms p (buildReportSet p2))
    | none => .ok p

/-- C3: platform matching returns one output entry per discovered
platform, in order: a platform whose key is in the report map gets that
report path with `ShouldPreserve=false`, an absent key gets an empty
path with `ShouldPreserve=true`, the platform identity fields are
carried through unchanged, and no platform is dropped. -/
theorem platform_matching_preserves_all_platforms
    (p : List PatchPlatform) (m : List (String × String)) :
    (matchPlatforms p m).length = p.length ∧
    ∀ i, i < p.length →
      ((matchPlatforms p m).getD i default).os = (p.getD i default).os ∧
      ((matchPlatforms p m).getD i default).architecture = (p.getD i default).architecture ∧
      ((matchPlatforms p m).getD i default).variant = (p.getD i default).variant ∧
      ((matchPlatforms p m).getD i default).osVersion = (p.getD i default).osVersion ∧
      match lookupAssoc m (PlatformKey (p.getD i default)) with
      | some rp => ((matchPlatforms p m).getD i default).reportFile = rp ∧
          ((matchPlatforms p m).getD i default).shouldPreserve = false
      | none => ((matchPlatforms p m).getD i default).reportFile = "" ∧
          ((matchPlatforms p m).getD i default).shouldPreserve = true := by
  refine ⟨by simp [matchPlatforms], fun i hi => ?_⟩
  have hi' : i < (matchPlatforms p m).length := by simpa [matchPlatforms] using hi
  have h1 : (matchPlatforms p m).getD i default = matchOne m (p.getD i default) := by
    rw [List.getD_eq_getElem _ _ hi', List.getD_eq_getElem _ _ hi]
    simp [matchPlatforms]
  rw [h1]
  unfold matchOne
  cases h2 : lookupAssoc m (PlatformKey (p.getD i default)) <;> simp

/-- Demonstration inputs for the matching loop: two image platforms, one
with a report. -/
def demoImagePlatforms : List PatchPlatform :=
  [⟨"linux", "amd64", "", "", [], "", false⟩,
   ⟨"linux", "arm64", "", "", [], "", false⟩]

def demoReportSet : List (String × String) :=
  [("linux/amd64", "reports/report-linux-amd64.json")]

/-- Witness for C3 at the demonstration inputs. -/
theorem platform_matching_preserves_all_platforms_witness :
    (matchPlatforms demoImagePlatforms demoReportSet).length =
      demoImagePlatforms.length ∧
    (((matchPlatforms demoImagePlatforms demoReportSet).getD 0 default).os =
      (demoImagePlatforms.getD 0 default).os ∧
     ((matchPlatforms demoImagePlatforms demoReportSet).getD 0 default).architecture =
      (demoImagePlatforms.getD 0 default).architecture ∧
     ((matchPlatforms demoImagePlatforms demoReportSet).getD 0 default).variant =
      (demoImagePlatforms.getD 0 default).variant ∧
     ((matchPlatforms demoImagePlatforms demoReportSet).getD 0 default).osVersion =
      (demoImagePlatforms.getD 0 default).osVersion ∧
     match lookupAssoc demoReportSet (PlatformKey (demoImagePlatforms.getD 0 default)) with
     | some rp =>
        ((matchPlatforms demoImagePlatforms demoReportSet).getD 0 default).reportFile = rp ∧
        ((matchPlatforms demoImagePlatforms demoReportSet).getD 0 default).shouldPreserve = false
     | none =>
        ((matchPlatforms demoImagePlatforms demoReportSet).getD 0 default).reportFile = "" ∧
        ((matchPlatforms demoImagePlatforms demoReportSet).getD 0 default).shouldPreserve = true) :=
  ⟨(platform_matching_preserves_all_platforms demoImagePlatforms demoReportSet).1,
   (platform_matching_preserves_all_platforms demoImagePlatforms demoReportSet).2 0
     (by decide)⟩

/-- C8 counterexample: an image reference resolving to a single-platform
linux/amd64 image does NOT make discovery fail — `DiscoverPlatforms`
returns a singleton platform list with no error, contrary to the claim
that every non-index resolution yields a NotMultiPlatform error. -/
theorem single_platform_discovery_no_error_counterexample :
    DiscoverPlatforms (.single ⟨"linux", "amd64", ""⟩) none =
      .ok [⟨"linux", "amd64", "", "", [], "", false⟩] := rfl

/-- C8 (amended): for a reference resolving to a single-platform image,
discovery fails with the not-multi-platform error ONLY when the image
config lacks platform information (empty OS or empty architecture);
when the config carries both, discovery succeeds with the one platform
derived from the config. -/
theorem single_platform_discovery_behaviour (cfg : ImageConfig) :
    (cfg.architecture ≠ "" ∧ cfg.os ≠ "" →
      DiscoverPlatforms (.single cfg) none =
        .ok [normalizeArm64 ⟨cfg.os, cfg.architecture, cfg.variant, "", [], "", false⟩]) ∧
    (¬ (cfg.architecture ≠ "" ∧ cfg.os ≠ "") →
      DiscoverPlatforms (.single cfg) none = .error "image is not multi platform") := by
  constructor
  · intro h
    simp only [DiscoverPlatforms, DiscoverPlatformsFromReference]
    rw [if_pos h]
    rw [if_neg (by simp)]
  · intro h
    simp only [DiscoverPlatforms, DiscoverPlatformsFromReference]
    rw [if_neg h]
    rw [if_pos rfl]

/-- Witness for the amended C8 theorem at a config with platform data. -/
theorem single_platform_discovery_behaviour_witness :
    DiscoverPlatforms (.single ⟨"linux", "arm64", "v8"⟩) none =
      .ok [normalizeArm64 ⟨"linux", "arm64", "v8", "", [], "", false⟩] :=
  (single_platform_discovery_behaviour ⟨"linux", "arm64", "v8"⟩).1 (by decide)

/-- C9: the arm64/v8 variant is normalized away on both discovery paths,
so a platform with architecture arm64 and variant "v8" and the same
platform with an empty variant produce the same platform key, and the
image-discovery and report-discovery keys agree for linux/arm64. -/
theorem arm64_v8_platform_key_normalized :
    (∀ (os osVersion : String) (feats : List String),
      PlatformKey (mkRefPlatform ⟨os, "arm64", "v8", osVersion, feats⟩) =
        PlatformKey (mkRefPlatform ⟨os, "arm64", "", osVersion, feats⟩)) ∧
    (∀ path : String,
      PlatformKey (mkReportPlatform "arm64" "v8" path) =
        PlatformKey (mkReportPlatform "arm64" "" path)) ∧
    (∀ path : String,
      PlatformKey (mkReportPlatform "arm64" "v8" path) =
        PlatformKey (mkRefPlatform ⟨"linux", "arm64", "v8", "", []⟩)) :=
  ⟨fun _ _ _ => rfl, fun _ => rfl, fun _ => rfl⟩

/-- True when the directory entry is a file the report parser rejects. -/
def isUnparseableEntry : ReportEntry → Bool
  | .unparseable _ => true
  | _ => false

/-- The platform (if any) that `DiscoverPlatformsFromReport` emits for a
single directory entry. -/
def reportEntryPlatform (reportDir : String) : ReportEntry → Option PatchPlatform
  | .parsed nm osType arch variant =>
    if isSupportedOsType osType then
      some (mkReportPlatform arch variant (reportDir ++ "/" ++ nm))
    else none
  | _ => none

theorem normalizeArm64_os (pl : PatchPlatform) : (normalizeArm64 pl).os = pl.os := by
  unfold normalizeArm64
  split <;> rfl

/-- C10: on a report directory in which every file parses, platform
discovery from reports succeeds and emits exactly one platform per
parsed report whose OS family is in the fixed allow-list (in directory
order), silently skipping directories and unsupported-OS reports, and
every emitted platform has its OS field equal to the constant
"linux". -/
theorem report_discovery_allow_list (reportDir : String) (entries : List ReportEntry)
    (h : ∀ e ∈ entries, isUnparseableEntry e = false) :
    DiscoverPlatformsFromReport reportDir entries =
      .ok (entries.filterMap (reportEntryPlatform reportDir)) ∧
    ∀ pl ∈ entries.filterMap (reportEntryPlatform reportDir), pl.os = "linux" := by
  constructor
  · induction entries with
    | nil => rfl
    | cons e rest ih =>
      have hrest := ih (fun x hx => h x (List.mem_cons_of_mem _ hx))
      cases e with
      | dir nm =>
        simpa [DiscoverPlatformsFromReport, List.filterMap_cons, reportEntryPlatform]
          using hrest
      | unparseable nm =>
        have := h (.unparseable nm) (List.mem_cons_self _ _)
        simp [isUnparseableEntry] at this
      | parsed nm osType arch variant =>
        by_cases hsup : isSupportedOsType osType
        · simp only [DiscoverPlatformsFromReport, hsup, if_pos, hrest,
            List.filterMap_cons, reportEntryPlatform]
        · simp only [DiscoverPlatformsFromReport, List.filterMap_cons, reportEntryPlatform]
          rw [if_neg hsup, if_neg hsup]
          exact hrest
  · intro pl hpl
    obtain ⟨e, _, hemit⟩ := List.mem_filterMap.mp hpl
    cases e with
    | dir nm => simp [reportEntryPlatform] at hemit
    | unparseable nm => simp [reportEntryPlatform] at hemit
    | parsed nm osType arch variant =>
      simp only [reportEntryPlatform] at hemit
      by_cases hsup : isSupportedOsType osType
      · rw [if_pos hsup] at hemit
        have hplval := Option.some.inj hemit
        rw [← hplval]
        unfold mkReportPlatform
        rw [normalizeArm64_os]
      · rw [if_neg hsup] at hemit
        exact absurd hemit (by simp)

/-- Demonstration report directory: a subdirectory, a supported Debian
report, an unsupported Windows report, and a supported Alpine arm64/v8
report. -/
def demoReportEntries : List ReportEntry :=
  [.dir "sub",
   .parsed "report-linux-amd64.json" "debian" "amd64" "",
   .parsed "report-windows-amd64.json" "windows" "amd64" "",
   .parsed "report-linux-arm64.json" "alpine" "arm64" "v8"]

/-- Witness for C10 at the demonstration directory. -/
theorem report_discovery_allow_list_witness :
    DiscoverPlatformsFromReport "reports" demoReportEntries =
      .ok (demoReportEntries.filterMap (reportEntryPlatform "reports")) ∧
    ∀ pl ∈ demoReportEntries.filterMap (reportEntryPlatform "reports"),
      pl.os = "linux" :=
  report_discovery_allow_list "reports" demoReportEntries (by decide)

end Copa
